import Mathlib

/-!
Verification of the affine-matrix core of the `agb` repository
(`agb/src/display/affine.rs`) against its natural-language specification.

The affine module is embedded shallowly.  The fixed-point numeric crate
(`agb_fixnum`) and the BIOS bridge (`crate::syscall::bg_affine_matrix`) are
code of the repository that is not available here; those pieces are modelled
from the specification and are marked `Modelled from the spec:` in their doc
comments.  Everything else is translated directly from `affine.rs`.
-/

/-- Modelled from the spec: the external wide fixed-point number
`Num<i32, 8>` (spec section 2: signed fixed-point, 8 fractional bits, value =
raw / 2^8).  The raw value is modelled as an unbounded integer: the spec fixes
no overflow behaviour for the wide type, demanding exact fixed-point matrix
algebra instead. -/
structure Num32 where
  raw : ℤ
deriving DecidableEq, Repr

/-- Modelled from the spec: conversion of an integer into the wide fixed-point
type (Rust `1.into()`): the raw value is the integer shifted by the 8
fractional bits. -/
def Num32.ofInt (n : ℤ) : Num32 := ⟨n * 256⟩

instance : Add Num32 := ⟨fun p q => ⟨p.raw + q.raw⟩⟩

instance : Sub Num32 := ⟨fun p q => ⟨p.raw - q.raw⟩⟩

instance : Neg Num32 := ⟨fun p => ⟨-p.raw⟩⟩

/-- Modelled from the spec: wide fixed-point multiplication.  The raw product
carries 16 fractional bits and is arithmetically shifted back to 8, i.e.
floor-divided by 2^8. -/
instance : Mul Num32 := ⟨fun p q => ⟨Int.fdiv (p.raw * q.raw) 256⟩⟩

/-- Modelled from the spec: fixed-point absolute value. -/
def Num32.abs (p : Num32) : Num32 := ⟨|p.raw|⟩

/-- Modelled from the spec: flooring to an integral fixed-point value (Rust
`floor()` re-widened into the fixed-point type). -/
def Num32.floorToNum (p : Num32) : Num32 := ⟨256 * Int.fdiv p.raw 256⟩

/-- Modelled from the spec: euclidean remainder on fixed-point values (Rust
`rem_euclid`); on raw values this is the euclidean remainder of the raws, with
a result in `[0, q.raw)` for positive `q`. -/
def Num32.remEuclid (p q : Num32) : Num32 := ⟨p.raw % q.raw⟩

/-- The fixed-point constant one quarter (raw 64). -/
def Num32.quarter : Num32 := ⟨64⟩

/-- Modelled from the spec: the external fixed-point trigonometric cosine of
an angle measured as a fraction of a full turn (spec section 2 lists
sine/cosine support of the numeric type without fixing an algorithm).
Modelled by the standard self-similar parabolic approximation used by
fixed-point libraries on this hardware class; it is exact at quarter-turn
multiples, as the half-turn property of spec section 8 requires. -/
def Num32.cos (x : Num32) : Num32 :=
  let x1 := x - (Num32.quarter + (x + Num32.quarter).floorToNum)
  let x2 := x1 * ((x1.abs - Num32.mk 128) * Num32.mk 4096)
  x2 + x2 * (x2.abs - Num32.mk 256) * Num32.mk 58

/-- Modelled from the spec: the external fixed-point sine, computed from the
cosine by the quarter-turn phase shift. -/
def Num32.sin (x : Num32) : Num32 := (x - Num32.quarter).cos

/-- Modelled from the spec: the external narrow fixed-point number
`Num<i16, 8>` (8 signed integer bits + 8 fractional bits, a 16-bit
twos-complement raw value per the binary layout of spec section 6). -/
structure Num16 where
  raw : ℤ
deriving DecidableEq, Repr

/-- Modelled from the spec: fallible narrowing `Num<i32,8> -> Num<i16,8>`
(Rust `try_change_base`).  The fractional precision is unchanged, so the
conversion is exact and succeeds precisely when the raw value fits the
twos-complement 16-bit range. -/
def Num32.tryChangeBase16 (p : Num32) : Option Num16 :=
  if -32768 ≤ p.raw ∧ p.raw ≤ 32767 then some ⟨p.raw⟩ else none

/-- Modelled from the spec: truncation of the raw bit pattern to 16 bits
(Rust `as i16` cast), reinterpreted as a twos-complement 16-bit value. -/
def Num32.wrapRaw16 (p : Num32) : Num16 := ⟨(p.raw + 32768) % 65536 - 32768⟩

/-- Modelled from the spec: widening `Num<i16,8> -> Num<i32,8>` (Rust
`change_base`), always exact, keeping the raw value. -/
def Num16.changeBase32 (p : Num16) : Num32 := ⟨p.raw⟩

/-- Modelled from the spec: flooring a narrow fixed-point value to a plain
integer (Rust `floor()` on `Num<i16, 8>`). -/
def Num16.floorInt (p : Num16) : ℤ := Int.fdiv p.raw 256

/-- The 2D vector of wide fixed-point numbers, `Vector2D<Num<i32, 8>>`. -/
structure Vector2D where
  x : Num32
  y : Num32
deriving DecidableEq, Repr

/-- `AffineMatrix` of `affine.rs`: six wide fixed-point components, the
2x2 linear part `a b c d` plus the translation `x y`. -/
structure AffineMatrix where
  a : Num32
  b : Num32
  c : Num32
  d : Num32
  x : Num32
  y : Num32
deriving DecidableEq, Repr

/-- `AffineMatrix::identity` of `affine.rs`. -/
def AffineMatrix.identity : AffineMatrix :=
  { a := Num32.ofInt 1
    b := Num32.ofInt 0
    c := Num32.ofInt 0
    d := Num32.ofInt 1
    x := Num32.ofInt 0
    y := Num32.ofInt 0 }

/-- The inner helper of `AffineMatrix::from_rotation` of `affine.rs`: builds
the rotation matrix from the sine and cosine of an angle already reduced to
one turn. -/
def AffineMatrix.fromRotationInner (angle : Num32) : AffineMatrix :=
  { a := angle.cos
    b := -angle.sin
    c := angle.sin
    d := angle.cos
    x := Num32.ofInt 0
    y := Num32.ofInt 0 }

/-- `AffineMatrix::from_rotation` of `affine.rs` at the working fractional
precision (8 bits, the precision the generic entry point converts to): the
angle is first reduced with `rem_euclid(1)` and then handed to the inner
constructor. -/
def AffineMatrix.fromRotation (angle : Num32) : AffineMatrix :=
  AffineMatrix.fromRotationInner (angle.remEuclid (Num32.ofInt 1))

/-- `AffineMatrix::from_translation` of `affine.rs`. -/
def AffineMatrix.fromTranslation (position : Vector2D) : AffineMatrix :=
  { a := Num32.ofInt 1
    b := Num32.ofInt 0
    c := Num32.ofInt 0
    d := Num32.ofInt 1
    x := -position.x
    y := -position.y }

/-- `AffineMatrix::position` of `affine.rs`. -/
def AffineMatrix.position (m : AffineMatrix) : Vector2D :=
  { x := -m.x, y := -m.y }

/-- `AffineMatrix::from_scale` of `affine.rs`. -/
def AffineMatrix.fromScale (scale : Vector2D) : AffineMatrix :=
  { a := scale.x
    b := Num32.ofInt 0
    c := Num32.ofInt 0
    d := scale.y
    x := Num32.ofInt 0
    y := Num32.ofInt 0 }

/-- `impl Mul for AffineMatrix` of `affine.rs`. -/
def AffineMatrix.mul (m rhs : AffineMatrix) : AffineMatrix :=
  { a := m.a * rhs.a + m.b * rhs.c
    b := m.a * rhs.b + m.b * rhs.d
    c := m.c * rhs.a + m.d * rhs.c
    d := m.c * rhs.b + m.d * rhs.d
    x := m.a * rhs.x + m.b * rhs.y + m.x
    y := m.c * rhs.x + m.d * rhs.y + m.y }

instance : Mul AffineMatrix := ⟨AffineMatrix.mul⟩

/-- `impl MulAssign for AffineMatrix` of `affine.rs`: the left operand is
replaced by the product; the returned matrix is the new value of the left
operand. -/
def AffineMatrix.mulAssign (m rhs : AffineMatrix) : AffineMatrix := m * rhs

/-- `AffineMatrixBackground` of `affine.rs`: narrow linear part, wide
translation. -/
structure AffineMatrixBackground where
  a : Num16
  b : Num16
  c : Num16
  d : Num16
  x : Num32
  y : Num32
deriving DecidableEq, Repr

/-- `AffineMatrixObject` of `affine.rs`: narrow linear part only. -/
structure AffineMatrixObject where
  a : Num16
  b : Num16
  c : Num16
  d : Num16
deriving DecidableEq, Repr

/-- `AffineMatrix::try_to_background` of `affine.rs`.  `none` models the
`Err(OverflowError)` result of the Rust function; the `?` early returns are
the `Option.bind` chain. -/
def AffineMatrix.tryToBackground (m : AffineMatrix) : Option AffineMatrixBackground :=
  m.a.tryChangeBase16.bind fun a =>
  m.b.tryChangeBase16.bind fun b =>
  m.c.tryChangeBase16.bind fun c =>
  m.d.tryChangeBase16.bind fun d =>
  some { a := a, b := b, c := c, d := d, x := m.x, y := m.y }

/-- `AffineMatrix::to_background_wrapping` of `affine.rs`. -/
def AffineMatrix.toBackgroundWrapping (m : AffineMatrix) : AffineMatrixBackground :=
  { a := m.a.wrapRaw16
    b := m.b.wrapRaw16
    c := m.c.wrapRaw16
    d := m.d.wrapRaw16
    x := m.x
    y := m.y }

/-- `AffineMatrix::try_to_object` of `affine.rs`.  `none` models the
`Err(OverflowError)` result. -/
def AffineMatrix.tryToObject (m : AffineMatrix) : Option AffineMatrixObject :=
  m.a.tryChangeBase16.bind fun a =>
  m.b.tryChangeBase16.bind fun b =>
  m.c.tryChangeBase16.bind fun c =>
  m.d.tryChangeBase16.bind fun d =>
  some { a := a, b := b, c := c, d := d }

/-- `AffineMatrix::to_object_wrapping` of `affine.rs`. -/
def AffineMatrix.toObjectWrapping (m : AffineMatrix) : AffineMatrixObject :=
  { a := m.a.wrapRaw16
    b := m.b.wrapRaw16
    c := m.c.wrapRaw16
    d := m.d.wrapRaw16 }

/-- `AffineMatrixBackground::to_affine_matrix` of `affine.rs`. -/
def AffineMatrixBackground.toAffineMatrix (m : AffineMatrixBackground) : AffineMatrix :=
  { a := m.a.changeBase32
    b := m.b.changeBase32
    c := m.c.changeBase32
    d := m.d.changeBase32
    x := m.x
    y := m.y }

/-- `AffineMatrixObject::to_affine_matrix` of `affine.rs`: the translation of
the widened matrix is zero. -/
def AffineMatrixObject.toAffineMatrix (m : AffineMatrixObject) : AffineMatrix :=
  { a := m.a.changeBase32
    b := m.b.changeBase32
    c := m.c.changeBase32
    d := m.d.changeBase32
    x := Num32.ofInt 0
    y := Num32.ofInt 0 }

/-- Modelled from the spec: the rotation input of the hardware bridge, a
fixed-point fraction of a full turn with 16 fractional bits
(`Num<i32, 16>`). -/
structure Num32F16 where
  raw : ℤ
deriving DecidableEq, Repr

/-- Modelled from the spec: `rem_euclid(1)` on the 16-fractional-bit turn
fraction; the raw remainder lies in `[0, 2^16)`. -/
def Num32F16.remEuclidOne (p : Num32F16) : Num32F16 := ⟨p.raw % 65536⟩

/-- Modelled from the spec (section 6): the 16-bit turn fraction the bridge
hands to the hardware after narrowing the rotation. -/
structure NumU16 where
  raw : ℤ
deriving DecidableEq, Repr

/-- Modelled from the spec (section 6): fallible narrowing of the rotation to
16-bit precision; succeeds precisely when the raw turn fraction fits the
16-bit destination. -/
def Num32F16.tryChangeBaseU16 (p : Num32F16) : Option NumU16 :=
  if 0 ≤ p.raw ∧ p.raw ≤ 65535 then some ⟨p.raw⟩ else none

/-- Modelled from the spec (sections 4.3 and 6): the external hardware
trigonometry bridge `syscall::bg_affine_matrix`.  It computes the equivalent
of `translate(-origin) * scale * rotate(rotation) * translate(position)` from
the already-narrowed inputs and returns it as a background matrix. -/
def bgAffineMatrix (transformOrigin : Vector2D) (displayCenter : ℤ × ℤ)
    (scale : Num16 × Num16) (rotation : NumU16) : AffineMatrixBackground :=
  (AffineMatrix.fromTranslation { x := -transformOrigin.x, y := -transformOrigin.y } *
   AffineMatrix.fromScale { x := scale.1.changeBase32, y := scale.2.changeBase32 } *
   AffineMatrix.fromRotation ⟨Int.fdiv rotation.raw 256⟩ *
   AffineMatrix.fromTranslation { x := Num32.ofInt displayCenter.1, y := Num32.ofInt displayCenter.2 }).toBackgroundWrapping

/-- `AffineMatrixBackground::from_scale_rotation_position` of `affine.rs`.
The Rust function narrows `position` to `Num<i16, 8>` per component and
floors it, narrows `scale` to the destination precision, reduces `rotation`
modulo one turn and narrows it to 16-bit precision, each followed by an
`.unwrap()`.  `Option.none` models the fatal `unwrap` abort: the function has
no recoverable error return. -/
def AffineMatrixBackground.fromScaleRotationPosition (transformOrigin : Vector2D)
    (scale : Vector2D) (rotation : Num32F16) (position : Vector2D) :
    Option AffineMatrixBackground :=
  position.x.tryChangeBase16.bind fun px =>
  position.y.tryChangeBase16.bind fun py =>
  scale.x.tryChangeBase16.bind fun sx =>
  scale.y.tryChangeBase16.bind fun sy =>
  rotation.remEuclidOne.tryChangeBaseU16.bind fun r =>
  some (bgAffineMatrix transformOrigin (px.floorInt, py.floorInt) (sx, sy) r)

/-- The integer `w` is the 16-bit twos-complement truncation of the raw bit
pattern of `v`: congruent to `v` modulo `2^16` and within the signed 16-bit
range. -/
def truncates16 (v w : ℤ) : Prop :=
  w % 65536 = v % 65536 ∧ -32768 ≤ w ∧ w ≤ 32767

theorem Num32.mul_ofInt_one (p : Num32) : p * Num32.ofInt 1 = p := by
  show Num32.mk (Int.fdiv (p.raw * (1 * 256)) 256) = p
  rw [one_mul, Int.mul_fdiv_cancel _ (by norm_num)]

theorem Num32.ofInt_one_mul (p : Num32) : Num32.ofInt 1 * p = p := by
  show Num32.mk (Int.fdiv ((1 * 256) * p.raw) 256) = p
  rw [one_mul, Int.mul_fdiv_cancel_left _ (by norm_num)]

theorem Num32.mul_ofInt_zero (p : Num32) : p * Num32.ofInt 0 = Num32.ofInt 0 := by
  show Num32.mk (Int.fdiv (p.raw * (0 * 256)) 256) = Num32.mk (0 * 256)
  simp

theorem Num32.ofInt_zero_mul (p : Num32) : Num32.ofInt 0 * p = Num32.ofInt 0 := by
  show Num32.mk (Int.fdiv ((0 * 256) * p.raw) 256) = Num32.mk (0 * 256)
  simp

theorem Num32.add_ofInt_zero (p : Num32) : p + Num32.ofInt 0 = p := by
  show Num32.mk (p.raw + 0 * 256) = p
  simp

theorem Num32.ofInt_zero_add (p : Num32) : Num32.ofInt 0 + p = p := by
  show Num32.mk (0 * 256 + p.raw) = p
  simp

theorem Num32.neg_neg_eq (p : Num32) : -(-p) = p := by
  show Num32.mk (-(-p.raw)) = p
  rw [neg_neg]

theorem Num32.tryChangeBase16_eq_some (p : Num32) (h1 : -32768 ≤ p.raw) (h2 : p.raw ≤ 32767) :
    p.tryChangeBase16 = some ⟨p.raw⟩ := by
  simp [Num32.tryChangeBase16, h1, h2]

theorem Num32.tryChangeBase16_cases (p : Num32) :
    (p.tryChangeBase16 = none ∧ (p.raw < -32768 ∨ 32767 < p.raw)) ∨
    (p.tryChangeBase16 = some ⟨p.raw⟩ ∧ -32768 ≤ p.raw ∧ p.raw ≤ 32767) := by
  unfold Num32.tryChangeBase16
  by_cases h : -32768 ≤ p.raw ∧ p.raw ≤ 32767
  · exact Or.inr ⟨if_pos h, h⟩
  · exact Or.inl ⟨if_neg h, by omega⟩

theorem Num32F16.tryChangeBaseU16_cases (p : Num32F16) :
    (p.tryChangeBaseU16 = none ∧ (p.raw < 0 ∨ 65535 < p.raw)) ∨
    (p.tryChangeBaseU16 = some ⟨p.raw⟩ ∧ 0 ≤ p.raw ∧ p.raw ≤ 65535) := by
  unfold Num32F16.tryChangeBaseU16
  by_cases h : 0 ≤ p.raw ∧ p.raw ≤ 65535
  · exact Or.inr ⟨if_pos h, h⟩
  · exact Or.inl ⟨if_neg h, by omega⟩

theorem Num32.truncates16_wrapRaw16 (p : Num32) : truncates16 p.raw p.wrapRaw16.raw := by
  unfold truncates16
  simp only [Num32.wrapRaw16]
  omega

theorem Num32.wrapRaw16_eq_self (p : Num32) (h1 : -32768 ≤ p.raw) (h2 : p.raw ≤ 32767) :
    p.wrapRaw16 = ⟨p.raw⟩ := by
  unfold Num32.wrapRaw16
  congr 1
  omega

theorem tryToBackground_eq_none_iff (M : AffineMatrix) :
    M.tryToBackground = none ↔
      ((M.a.raw < -32768 ∨ 32767 < M.a.raw) ∨ (M.b.raw < -32768 ∨ 32767 < M.b.raw) ∨
       (M.c.raw < -32768 ∨ 32767 < M.c.raw) ∨ (M.d.raw < -32768 ∨ 32767 < M.d.raw)) := by
  unfold AffineMatrix.tryToBackground
  rcases Num32.tryChangeBase16_cases M.a with ⟨ea, ra⟩ | ⟨ea, ra⟩ <;>
    rcases Num32.tryChangeBase16_cases M.b with ⟨eb, rb⟩ | ⟨eb, rb⟩ <;>
    rcases Num32.tryChangeBase16_cases M.c with ⟨ec, rc⟩ | ⟨ec, rc⟩ <;>
    rcases Num32.tryChangeBase16_cases M.d with ⟨ed, rd⟩ | ⟨ed, rd⟩ <;>
    simp [ea, eb, ec, ed] <;> omega

theorem tryToObject_eq_none_iff (M : AffineMatrix) :
    M.tryToObject = none ↔
      ((M.a.raw < -32768 ∨ 32767 < M.a.raw) ∨ (M.b.raw < -32768 ∨ 32767 < M.b.raw) ∨
       (M.c.raw < -32768 ∨ 32767 < M.c.raw) ∨ (M.d.raw < -32768 ∨ 32767 < M.d.raw)) := by
  unfold AffineMatrix.tryToObject
  rcases Num32.tryChangeBase16_cases M.a with ⟨ea, ra⟩ | ⟨ea, ra⟩ <;>
    rcases Num32.tryChangeBase16_cases M.b with ⟨eb, rb⟩ | ⟨eb, rb⟩ <;>
    rcases Num32.tryChangeBase16_cases M.c with ⟨ec, rc⟩ | ⟨ec, rc⟩ <;>
    rcases Num32.tryChangeBase16_cases M.d with ⟨ed, rd⟩ | ⟨ed, rd⟩ <;>
    simp [ea, eb, ec, ed] <;> omega

/-- C1: for all matrices A and B, the product C = A * B has exactly the
components C.a = A.a*B.a + A.b*B.c, C.b = A.a*B.b + A.b*B.d,
C.c = A.c*B.a + A.d*B.c, C.d = A.c*B.b + A.d*B.d,
C.x = A.a*B.x + A.b*B.y + A.x, C.y = A.c*B.x + A.d*B.y + A.y, computed in the
wide fixed-point arithmetic, and the multiply-assign of A by B yields the
same value as A * B. -/
theorem mul_components_and_mulAssign (A B : AffineMatrix) :
    (A * B).a = A.a * B.a + A.b * B.c ∧
    (A * B).b = A.a * B.b + A.b * B.d ∧
    (A * B).c = A.c * B.a + A.d * B.c ∧
    (A * B).d = A.c * B.b + A.d * B.d ∧
    (A * B).x = A.a * B.x + A.b * B.y + A.x ∧
    (A * B).y = A.c * B.x + A.d * B.y + A.y ∧
    A.mulAssign B = A * B :=
  ⟨rfl, rfl, rfl, rfl, rfl, rfl, rfl⟩

/-- C2: identity() is the matrix with a = d = 1 and b = c = x = y = 0, and it
is a two-sided neutral element: M * identity = M and identity * M = M for
every matrix M. -/
theorem identity_two_sided_neutral :
    (AffineMatrix.identity.a = Num32.ofInt 1 ∧ AffineMatrix.identity.b = Num32.ofInt 0 ∧
     AffineMatrix.identity.c = Num32.ofInt 0 ∧ AffineMatrix.identity.d = Num32.ofInt 1 ∧
     AffineMatrix.identity.x = Num32.ofInt 0 ∧ AffineMatrix.identity.y = Num32.ofInt 0) ∧
    ∀ M : AffineMatrix, M * AffineMatrix.identity = M ∧ AffineMatrix.identity * M = M := by
  refine ⟨⟨rfl, rfl, rfl, rfl, rfl, rfl⟩, fun M => ⟨?_, ?_⟩⟩
  · show AffineMatrix.mul M AffineMatrix.identity = M
    cases M
    simp [AffineMatrix.mul, AffineMatrix.identity, Num32.mul_ofInt_one, Num32.mul_ofInt_zero,
      Num32.add_ofInt_zero, Num32.ofInt_zero_add]
  · show AffineMatrix.mul AffineMatrix.identity M = M
    cases M
    simp [AffineMatrix.mul, AffineMatrix.identity, Num32.ofInt_one_mul, Num32.ofInt_zero_mul,
      Num32.add_ofInt_zero, Num32.ofInt_zero_add]

/-- C5: from_rotation first reduces the angle modulo one full turn with
rem_euclid(1) and then returns the matrix with a = cos, b = -sin, c = sin,
d = cos of the reduced angle and x = y = 0, with no sign inversion of the
sine terms relative to this layout. -/
theorem fromRotation_reduces_then_builds (angle : Num32) :
    AffineMatrix.fromRotation angle =
      { a := (angle.remEuclid (Num32.ofInt 1)).cos
        b := -(angle.remEuclid (Num32.ofInt 1)).sin
        c := (angle.remEuclid (Num32.ofInt 1)).sin
        d := (angle.remEuclid (Num32.ofInt 1)).cos
        x := Num32.ofInt 0
        y := Num32.ofInt 0 } := rfl

/-- C6: from_translation has identity linear part and stores the negated
position, position() returns the negated stored offset, and the round trip
from_translation(p).position() = p holds. -/
theorem fromTranslation_position_round_trip (p : Vector2D) :
    (AffineMatrix.fromTranslation p).a = Num32.ofInt 1 ∧
    (AffineMatrix.fromTranslation p).b = Num32.ofInt 0 ∧
    (AffineMatrix.fromTranslation p).c = Num32.ofInt 0 ∧
    (AffineMatrix.fromTranslation p).d = Num32.ofInt 1 ∧
    (AffineMatrix.fromTranslation p).x = -p.x ∧
    (AffineMatrix.fromTranslation p).y = -p.y ∧
    (∀ M : AffineMatrix, M.position = { x := -M.x, y := -M.y }) ∧
    (AffineMatrix.fromTranslation p).position = p := by
  refine ⟨rfl, rfl, rfl, rfl, rfl, rfl, fun M => rfl, ?_⟩
  show Vector2D.mk (-(-p.x)) (-(-p.y)) = p
  rw [Num32.neg_neg_eq, Num32.neg_neg_eq]

/-- C7: the half-turn rotation matrix D = from_rotation(0.5 turns) satisfies
D * D = identity exactly in the fixed-point arithmetic. -/
theorem double_half_turn_is_identity :
    AffineMatrix.fromRotation (Num32.mk 128) * AffineMatrix.fromRotation (Num32.mk 128) =
      AffineMatrix.identity := by decide

/-- C8: from_scale(s) is the matrix with a = s.x, d = s.y and
b = c = x = y = 0; in particular from_scale((2, 2)) has diagonal coefficients
exactly 2 and not one half. -/
theorem fromScale_components (s : Vector2D) :
    AffineMatrix.fromScale s =
      { a := s.x
        b := Num32.ofInt 0
        c := Num32.ofInt 0
        d := s.y
        x := Num32.ofInt 0
        y := Num32.ofInt 0 } ∧
    (AffineMatrix.fromScale { x := Num32.ofInt 2, y := Num32.ofInt 2 }).a = Num32.ofInt 2 ∧
    (AffineMatrix.fromScale { x := Num32.ofInt 2, y := Num32.ofInt 2 }).d = Num32.ofInt 2 ∧
    (AffineMatrix.fromScale { x := Num32.ofInt 2, y := Num32.ofInt 2 }).a ≠ Num32.mk 128 :=
  ⟨rfl, rfl, rfl, by decide⟩

/-- C3: if every linear coefficient of M has magnitude strictly below the
narrow maximum 128 (raw magnitude below 2^15, hence exactly representable in
the signed 8-integer-bit + 8-fractional-bit narrow type), try_to_background
succeeds and to_affine_matrix of the result reproduces M exactly with x and y
copied unchanged; analogously try_to_object succeeds and its widening
reproduces the linear part with zero translation. -/
theorem narrowing_round_trip (M : AffineMatrix)
    (ha : |M.a.raw| < 32768) (hb : |M.b.raw| < 32768)
    (hc : |M.c.raw| < 32768) (hd : |M.d.raw| < 32768) :
    (∃ B, M.tryToBackground = some B ∧ B.toAffineMatrix = M) ∧
    (∃ O, M.tryToObject = some O ∧
      O.toAffineMatrix =
        { a := M.a, b := M.b, c := M.c, d := M.d, x := Num32.ofInt 0, y := Num32.ofInt 0 }) := by
  obtain ⟨ha1, ha2⟩ := abs_lt.mp ha
  obtain ⟨hb1, hb2⟩ := abs_lt.mp hb
  obtain ⟨hc1, hc2⟩ := abs_lt.mp hc
  obtain ⟨hd1, hd2⟩ := abs_lt.mp hd
  have ea := Num32.tryChangeBase16_eq_some M.a (by omega) (by omega)
  have eb := Num32.tryChangeBase16_eq_some M.b (by omega) (by omega)
  have ec := Num32.tryChangeBase16_eq_some M.c (by omega) (by omega)
  have ed := Num32.tryChangeBase16_eq_some M.d (by omega) (by omega)
  refine ⟨⟨⟨⟨M.a.raw⟩, ⟨M.b.raw⟩, ⟨M.c.raw⟩, ⟨M.d.raw⟩, M.x, M.y⟩, ?_, rfl⟩,
    ⟨⟨⟨M.a.raw⟩, ⟨M.b.raw⟩, ⟨M.c.raw⟩, ⟨M.d.raw⟩⟩, ?_, rfl⟩⟩
  · unfold AffineMatrix.tryToBackground
    rw [ea, eb, ec, ed]
    rfl
  · unfold AffineMatrix.tryToObject
    rw [ea, eb, ec, ed]
    rfl

/-- Witness for C3 at a concrete matrix. -/
theorem narrowing_round_trip_witness :
    (∃ B, (AffineMatrix.mk ⟨300⟩ ⟨-5⟩ ⟨7⟩ ⟨256⟩ ⟨1000⟩ ⟨-2000⟩).tryToBackground = some B ∧
       B.toAffineMatrix = AffineMatrix.mk ⟨300⟩ ⟨-5⟩ ⟨7⟩ ⟨256⟩ ⟨1000⟩ ⟨-2000⟩) ∧
    (∃ O, (AffineMatrix.mk ⟨300⟩ ⟨-5⟩ ⟨7⟩ ⟨256⟩ ⟨1000⟩ ⟨-2000⟩).tryToObject = some O ∧
       O.toAffineMatrix =
         { a := ⟨300⟩, b := ⟨-5⟩, c := ⟨7⟩, d := ⟨256⟩,
           x := Num32.ofInt 0, y := Num32.ofInt 0 }) :=
  narrowing_round_trip (AffineMatrix.mk ⟨300⟩ ⟨-5⟩ ⟨7⟩ ⟨256⟩ ⟨1000⟩ ⟨-2000⟩)
    (by decide) (by decide) (by decide) (by decide)

/-- C4 as stated is refuted at a concrete input: the coefficient value -128
(raw -32768) has magnitude at the narrow range maximum of 128, yet both
fallible narrowings succeed rather than returning the overflow failure. -/
theorem narrow_overflow_magnitude_counterexample :
    32768 ≤ |(AffineMatrix.mk ⟨-32768⟩ ⟨0⟩ ⟨0⟩ ⟨0⟩ ⟨0⟩ ⟨0⟩).a.raw| ∧
    (AffineMatrix.mk ⟨-32768⟩ ⟨0⟩ ⟨0⟩ ⟨0⟩ ⟨0⟩ ⟨0⟩).tryToBackground.isSome = true ∧
    (AffineMatrix.mk ⟨-32768⟩ ⟨0⟩ ⟨0⟩ ⟨0⟩ ⟨0⟩ ⟨0⟩).tryToObject.isSome = true := by
  decide

/-- C4 (amended): the fallible narrowings fail exactly when some linear
coefficient raw value lies outside the twos-complement 16-bit range
[-2^15, 2^15 - 1]; magnitude at or above the maximum 128 is not equivalent,
since the value -128 is representable.  The wrapping narrowings are total
functions returning each coefficient raw bit pattern truncated to 16 bits,
with the background conversion copying x and y unchanged. -/
theorem narrowing_overflow_iff_and_wrapping_truncation (M : AffineMatrix) :
    (M.tryToBackground = none ↔
      ((M.a.raw < -32768 ∨ 32767 < M.a.raw) ∨ (M.b.raw < -32768 ∨ 32767 < M.b.raw) ∨
       (M.c.raw < -32768 ∨ 32767 < M.c.raw) ∨ (M.d.raw < -32768 ∨ 32767 < M.d.raw))) ∧
    (M.tryToObject = none ↔
      ((M.a.raw < -32768 ∨ 32767 < M.a.raw) ∨ (M.b.raw < -32768 ∨ 32767 < M.b.raw) ∨
       (M.c.raw < -32768 ∨ 32767 < M.c.raw) ∨ (M.d.raw < -32768 ∨ 32767 < M.d.raw))) ∧
    truncates16 M.a.raw M.toBackgroundWrapping.a.raw ∧
    truncates16 M.b.raw M.toBackgroundWrapping.b.raw ∧
    truncates16 M.c.raw M.toBackgroundWrapping.c.raw ∧
    truncates16 M.d.raw M.toBackgroundWrapping.d.raw ∧
    M.toBackgroundWrapping.x = M.x ∧ M.toBackgroundWrapping.y = M.y ∧
    truncates16 M.a.raw M.toObjectWrapping.a.raw ∧
    truncates16 M.b.raw M.toObjectWrapping.b.raw ∧
    truncates16 M.c.raw M.toObjectWrapping.c.raw ∧
    truncates16 M.d.raw M.toObjectWrapping.d.raw :=
  ⟨tryToBackground_eq_none_iff M, tryToObject_eq_none_iff M,
   Num32.truncates16_wrapRaw16 M.a, Num32.truncates16_wrapRaw16 M.b,
   Num32.truncates16_wrapRaw16 M.c, Num32.truncates16_wrapRaw16 M.d,
   rfl, rfl,
   Num32.truncates16_wrapRaw16 M.a, Num32.truncates16_wrapRaw16 M.b,
   Num32.truncates16_wrapRaw16 M.c, Num32.truncates16_wrapRaw16 M.d⟩

/-- C9: from_scale_rotation_position aborts fatally (the unwrap panic,
modelled as none) exactly when narrowing some position component to the
narrow i16 8-fractional-bit precision fails, or narrowing some scale
component fails, or narrowing the turn-reduced rotation to 16-bit precision
fails; when every narrowing succeeds no abort occurs and a background matrix
is returned. -/
theorem fromScaleRotationPosition_abort_iff (o s : Vector2D) (rot : Num32F16) (p : Vector2D) :
    AffineMatrixBackground.fromScaleRotationPosition o s rot p = none ↔
      ((p.x.raw < -32768 ∨ 32767 < p.x.raw) ∨ (p.y.raw < -32768 ∨ 32767 < p.y.raw) ∨
       (s.x.raw < -32768 ∨ 32767 < s.x.raw) ∨ (s.y.raw < -32768 ∨ 32767 < s.y.raw) ∨
       (rot.remEuclidOne.raw < 0 ∨ 65535 < rot.remEuclidOne.raw)) := by
  unfold AffineMatrixBackground.fromScaleRotationPosition
  rcases Num32.tryChangeBase16_cases p.x with ⟨e1, r1⟩ | ⟨e1, r1⟩ <;>
    rcases Num32.tryChangeBase16_cases p.y with ⟨e2, r2⟩ | ⟨e2, r2⟩ <;>
    rcases Num32.tryChangeBase16_cases s.x with ⟨e3, r3⟩ | ⟨e3, r3⟩ <;>
    rcases Num32.tryChangeBase16_cases s.y with ⟨e4, r4⟩ | ⟨e4, r4⟩ <;>
    rcases Num32F16.tryChangeBaseU16_cases rot.remEuclidOne with ⟨e5, r5⟩ | ⟨e5, r5⟩ <;>
    simp [e1, e2, e3, e4, e5] <;> omega

/-- C10: whenever the fallible narrowing succeeds, the wrapping narrowing
returns the same value, both for the background and the object conversion. -/
theorem wrapping_agrees_with_successful_fallible (M : AffineMatrix)
    (B : AffineMatrixBackground) (O : AffineMatrixObject)
    (hB : M.tryToBackground = some B) (hO : M.tryToObject = some O) :
    M.toBackgroundWrapping = B ∧ M.toObjectWrapping = O := by
  by_cases h : (-32768 ≤ M.a.raw ∧ M.a.raw ≤ 32767) ∧ (-32768 ≤ M.b.raw ∧ M.b.raw ≤ 32767) ∧
      (-32768 ≤ M.c.raw ∧ M.c.raw ≤ 32767) ∧ (-32768 ≤ M.d.raw ∧ M.d.raw ≤ 32767)
  · obtain ⟨⟨ha1, ha2⟩, ⟨hb1, hb2⟩, ⟨hc1, hc2⟩, ⟨hd1, hd2⟩⟩ := h
    have ea := Num32.tryChangeBase16_eq_some M.a ha1 ha2
    have eb := Num32.tryChangeBase16_eq_some M.b hb1 hb2
    have ec := Num32.tryChangeBase16_eq_some M.c hc1 hc2
    have ed := Num32.tryChangeBase16_eq_some M.d hd1 hd2
    unfold AffineMatrix.tryToBackground at hB
    rw [ea, eb, ec, ed] at hB
    unfold AffineMatrix.tryToObject at hO
    rw [ea, eb, ec, ed] at hO
    have hB2 : (⟨⟨M.a.raw⟩, ⟨M.b.raw⟩, ⟨M.c.raw⟩, ⟨M.d.raw⟩, M.x, M.y⟩ :
        AffineMatrixBackground) = B := Option.some.inj hB
    have hO2 : (⟨⟨M.a.raw⟩, ⟨M.b.raw⟩, ⟨M.c.raw⟩, ⟨M.d.raw⟩⟩ :
        AffineMatrixObject) = O := Option.some.inj hO
    refine ⟨?_, ?_⟩
    · rw [← hB2]
      unfold AffineMatrix.toBackgroundWrapping
      rw [Num32.wrapRaw16_eq_self M.a ha1 ha2, Num32.wrapRaw16_eq_self M.b hb1 hb2,
        Num32.wrapRaw16_eq_self M.c hc1 hc2, Num32.wrapRaw16_eq_self M.d hd1 hd2]
    · rw [← hO2]
      unfold AffineMatrix.toObjectWrapping
      rw [Num32.wrapRaw16_eq_self M.a ha1 ha2, Num32.wrapRaw16_eq_self M.b hb1 hb2,
        Num32.wrapRaw16_eq_self M.c hc1 hc2, Num32.wrapRaw16_eq_self M.d hd1 hd2]
  · exfalso
    have hnone : M.tryToBackground = none := (tryToBackground_eq_none_iff M).mpr (by omega)
    rw [hnone] at hB
    exact Option.noConfusion hB

/-- Witness for C10 at a concrete matrix including the boundary raw value
-32768. -/
theorem wrapping_agrees_witness :
    (AffineMatrix.mk ⟨400⟩ ⟨-400⟩ ⟨3⟩ ⟨-32768⟩ ⟨99⟩ ⟨-99⟩).toBackgroundWrapping =
        AffineMatrixBackground.mk ⟨400⟩ ⟨-400⟩ ⟨3⟩ ⟨-32768⟩ ⟨99⟩ ⟨-99⟩ ∧
    (AffineMatrix.mk ⟨400⟩ ⟨-400⟩ ⟨3⟩ ⟨-32768⟩ ⟨99⟩ ⟨-99⟩).toObjectWrapping =
        AffineMatrixObject.mk ⟨400⟩ ⟨-400⟩ ⟨3⟩ ⟨-32768⟩ :=
  wrapping_agrees_with_successful_fallible
    (AffineMatrix.mk ⟨400⟩ ⟨-400⟩ ⟨3⟩ ⟨-32768⟩ ⟨99⟩ ⟨-99⟩)
    (AffineMatrixBackground.mk ⟨400⟩ ⟨-400⟩ ⟨3⟩ ⟨-32768⟩ ⟨99⟩ ⟨-99⟩)
    (AffineMatrixObject.mk ⟨400⟩ ⟨-400⟩ ⟨3⟩ ⟨-32768⟩)
    (by decide) (by decide)
